import Mathlib

/-!
Verification development for the OpossumUI report generator
(tern/formats/opossumui/generator.py).

The Python source is shallowly embedded below:

* Python dicts become insertion-ordered association lists;
* Python sets become lists with add-if-absent insertion (`setAdd`);
* the fresh-uuid generator becomes a counter threaded through `AggState`
  (each call yields a fresh `Nat`);
* Python exceptions (UnboundLocalError, AttributeError, TypeError,
  IndexError) become `Except String` errors carrying the exception name;
* the external collaborators (timestamp source, version lookup, the
  notice formatter from tern.report.content) are modelled as fixed
  placeholder values: `Package.origins` holds the already-formatted
  notice text of each origin record, and the package comment is their
  concatenation, exactly as the source concatenates print_notices output.

Optional Python string fields (version, license, copyright) are modelled
as `String`, with `""` standing for any falsy value (None or the empty
string), which is exactly the distinction the source's truthiness tests
observe.
-/

/-! ## The path tree (nested Python dict of `_calculate_file_tree_from_paths`) -/

/-- A node of the OpossumUI resource tree: the file sentinel `1`, or a
directory, i.e. a nested insertion-ordered dict from path segments to nodes. -/
inductive FsNode where
  | file : FsNode
  | dir : List (String × FsNode) → FsNode

/-- The top-level dict of the resource tree. -/
abbrev FileTree := List (String × FsNode)

/-- `d.get(key)` on an insertion-ordered dict. -/
def assocFind : FileTree → String → Option FsNode
  | [], _ => none
  | (k, t) :: rest, key => if k = key then some t else assocFind rest key

/-- `d[key] = v` for a key already present (position preserved, as in a
Python dict). -/
def assocSet : FileTree → String → FsNode → FileTree
  | [], _, _ => []
  | (k, t) :: rest, key, v =>
    if k = key then (k, v) :: rest else (k, t) :: assocSet rest key v

/-- Python `str.split` on the slash separator, over the character list. -/
def splitAux : List Char → List Char → List String
  | [], acc => [String.mk acc.reverse]
  | c :: cs, acc =>
    if c = '/' then String.mk acc.reverse :: splitAux cs []
    else splitAux cs (c :: acc)

/-- Python `resource.split("/")`. -/
def pySplitSlash (s : String) : List String := splitAux s.data []

/-- `list(filter(None, resource.split("/")))`: the path segments with every
empty segment discarded. -/
def pathElements (resource : String) : List String :=
  (pySplitSlash resource).filter (fun seg => seg != "")

/-- `resource[-1] == "/"` for a nonempty string: the last character is the
separator. -/
def endsWithSlash (s : String) : Bool := s.data.getLast? == some '/'

/-- `_add_resource_to_tree(target_filetree, path_elements, is_file)`.

The Python loop walks the dict, creating a missing node as `1` when it is
the last element and `is_file` holds and as `{}` otherwise, and reuses an
existing node without overwriting it.  Descending through an existing
sentinel `1` calls `.get` on an int and raises AttributeError.  The
iterative dict mutation is rendered as structural recursion on the
segment list. -/
def _add_resource_to_tree : FileTree → List String → Bool → Except String FileTree
  | ft, [], _ => Except.ok ft
  | ft, [e], isf =>
    match assocFind ft e with
    | none => Except.ok (ft ++ [(e, if isf then FsNode.file else FsNode.dir [])])
    | some _ => Except.ok ft
  | ft, e :: r :: rest, isf =>
    match assocFind ft e with
    | none =>
      match _add_resource_to_tree [] (r :: rest) isf with
      | Except.ok sub => Except.ok (ft ++ [(e, FsNode.dir sub)])
      | Except.error msg => Except.error msg
    | some FsNode.file => Except.error "AttributeError"
    | some (FsNode.dir ch) =>
      match _add_resource_to_tree ch (r :: rest) isf with
      | Except.ok ch2 => Except.ok (assocSet ft e (FsNode.dir ch2))
      | Except.error msg => Except.error msg

/-- The body of the `for resource in resources` loop of
`_calculate_file_tree_from_paths`: the root marker is skipped, the empty
string raises IndexError at `resource[-1]`, and otherwise the source passes
`is_file=resource[-1] == "/"` (the inverted classification exactly as
written). -/
def processResource (ft : FileTree) (resource : String) : Except String FileTree :=
  if resource = "/" then Except.ok ft
  else if resource = "" then Except.error "IndexError"
  else _add_resource_to_tree ft (pathElements resource) (endsWithSlash resource)

/-- The `for resource in resources` loop itself, threading the tree
through `processResource` and propagating a raised exception. -/
def processResources (ft : FileTree) : List String → Except String FileTree
  | [] => Except.ok ft
  | resource :: rest =>
    match processResource ft resource with
    | Except.error msg => Except.error msg
    | Except.ok ft2 => processResources ft2 rest

/-- `_calculate_file_tree_from_paths(resources)`. -/
def _calculate_file_tree_from_paths (resources : List String) : Except String FileTree :=
  processResources [] resources

/-- Resolution of a segment chain to a node of the tree (the notion of a
path "appearing as a node"): follow `get` through nested directory dicts;
the empty chain resolves to the root directory. -/
def resolve : FileTree → List String → Option FsNode
  | ft, [] => some (FsNode.dir ft)
  | ft, [s] => assocFind ft s
  | ft, s :: r :: rest =>
    match assocFind ft s with
    | some (FsNode.dir ch) => resolve ch (r :: rest)
    | _ => none

/-- `pre` is an initial segment-chain of `l` (a path prefix at segment
granularity). -/
def isInitialOf (pre l : List String) : Prop := ∃ tail, pre ++ tail = l

/-! ## The image model (external read-only input of `get_external_attrs`) -/

/-- A scanned package.  String fields that are optional in the source are
`""` when absent; `origins` holds the formatted notice text of each
origin record (output of the external notice formatter). -/
structure Package where
  source : String
  name : String
  version : String
  pkg_license : String
  pkg_licenses : List String
  copyright : String
  proj_url : String
  origins : List String
  files : List String
  deriving DecidableEq

/-- A layer of the image; `layer_str` is the `str(layer)` rendering used as
the layer comment. -/
structure Layer where
  layer_index : Nat
  layer_str : String
  packages : List Package
  deriving DecidableEq

/-- The scanned image. -/
structure Image where
  name : String
  layers : List Layer
  deriving DecidableEq

/-- An attribution record as stored in `external_attrs`: the layer-level
dict carries source name, confidence and comment; the package-level dict
additionally carries the package metadata fields, in source order. -/
inductive Attr where
  | layerAttr (sourceName : String) (documentConfidence : Nat) (comment : String)
  | pkgAttr (sourceName : String) (documentConfidence : Nat) (comment : String)
      (packageName : String) (packageVersion : String) (url : String)
      (licenseName : String) (copyright : String)
  deriving DecidableEq

/-- The `licenseName` field of an attribution record, when it has one. -/
def Attr.licenseName? : Attr → Option String
  | Attr.layerAttr _ _ _ => none
  | Attr.pkgAttr _ _ _ _ _ _ licName _ => some licName

/-- The mutable state of the aggregation pass over the image: the uuid
counter, the three accumulators built by `get_external_attrs`, and the
`pkg_path` local variable (None while still unassigned, which is what
makes the layer-level read raise UnboundLocalError). -/
structure AggState where
  counter : Nat
  external_attrs : List (Nat × Attr)
  resources_to_attrs : List (String × List Nat)
  attr_breakpoints : List String
  pkg_path : Option String
  deriving DecidableEq

/-- `attr_breakpoints.add(x)`: Python set insertion. -/
def setAdd (s : List String) (x : String) : List String :=
  if x ∈ s then s else s ++ [x]

/-- The append-or-create idiom used on `resources_to_attrs`: if the key is
present append the uuid to its list, otherwise bind the key to the
one-element list. -/
def rtaAppend : List (String × List Nat) → String → Nat → List (String × List Nat)
  | [], key, uuid => [(key, [uuid])]
  | (k, ids) :: rest, key, uuid =>
    if k = key then (k, ids ++ [uuid]) :: rest
    else (k, ids) :: rtaAppend rest key uuid

/-- Decimal digits of a natural number (fuel-based). -/
def natDigitsAux : Nat → Nat → List Char → List Char
  | 0, _, acc => acc
  | fuel + 1, n, acc =>
    let d := Char.ofNat (48 + n % 10)
    if n < 10 then d :: acc else natDigitsAux fuel (n / 10) (d :: acc)

/-- Decimal rendering of a natural number. -/
def natRepr (n : Nat) : String := String.mk (natDigitsAux (n + 1) n [])

/-- The canonical layer path: slash followed by the percent-03d rendering
of the layer index (left zero-padding to at least three digits). -/
def layer_path_of (idx : Nat) : String :=
  let digits := natRepr idx
  "/" ++ (if digits.length < 3 then String.mk (List.replicate (3 - digits.length) '0') ++ digits else digits)

/-- The package attribution record registered under the package uuid
(source lines building `external_attrs[pkg_uuid]`): comment is the
concatenated notice text, version, license and copyright degrade to the
sentinel when falsy, and the license is the single field if truthy,
otherwise the concatenation of the license list. -/
def mkPkgAttr (pkg : Package) : Attr :=
  let pkg_comment := String.join pkg.origins
  let pkg_license := if pkg.pkg_license ≠ "" then pkg.pkg_license else String.join pkg.pkg_licenses
  Attr.pkgAttr ("Tern:" ++ pkg.source) 70 pkg_comment pkg.name
    (if pkg.version ≠ "" then pkg.version else "NONE")
    pkg.proj_url
    (if pkg_license ≠ "" then pkg_license else "NONE")
    (if pkg.copyright ≠ "" then pkg.copyright else "NONE")

/-- The resolved license as the specification words it: the single-license
field when present and non-empty; otherwise the concatenation of the
multi-license sequence; otherwise the sentinel. -/
def licenseName_spec (pkg : Package) : String :=
  if pkg.pkg_license ≠ "" then pkg.pkg_license
  else if String.join pkg.pkg_licenses ≠ "" then String.join pkg.pkg_licenses
  else "NONE"

/-- The body of the `for pkg in layer.packages` loop of
`get_external_attrs`: draw a fresh uuid, form the package directory path,
add the per-ecosystem directory and the bare packages-root to the
breakpoint set, record the package uuid under the package directory and
under every owned file path, and register the package attribution record.
The returned state's `pkg_path` is the package directory path (the local
variable left behind by the loop). -/
def process_package (layer_path : String) (st : AggState) (pkg : Package) : AggState :=
  let pkg_uuid := st.counter
  let pkg_path := layer_path ++ "/Packages/" ++ pkg.source ++ "/" ++ pkg.name ++ "/"
  let bps := setAdd (setAdd st.attr_breakpoints (layer_path ++ "/Packages/" ++ pkg.source ++ "/")) (layer_path ++ "/Packages/")
  let rta1 := rtaAppend st.resources_to_attrs pkg_path pkg_uuid
  let rta2 := List.foldl (fun r fp => rtaAppend r (layer_path ++ "/" ++ fp) pkg_uuid) rta1 pkg.files
  let ea := st.external_attrs ++ [(pkg_uuid, mkPkgAttr pkg)]
  AggState.mk (st.counter + 1) ea rta2 bps (some pkg_path)

/-- The body of the `for layer in image_obj.layers` loop of
`get_external_attrs`: draw the layer uuid, compute the layer path, then
evaluate the f-string over `pkg_path` — which raises UnboundLocalError
when `pkg_path` has never been assigned, and otherwise appends the layer
uuid under the stale package path with a trailing slash appended —
register the layer record, and run the package loop. -/
def process_layer (st : AggState) (layer : Layer) : Except String AggState :=
  let layer_uuid := st.counter
  let layer_path := layer_path_of layer.layer_index
  match st.pkg_path with
  | none => Except.error "UnboundLocalError"
  | some stale_pkg_path =>
    let rta := rtaAppend st.resources_to_attrs (stale_pkg_path ++ "/") layer_uuid
    let ea := st.external_attrs ++ [(layer_uuid, Attr.layerAttr "Tern:Layer" 70 layer.layer_str)]
    let st2 := AggState.mk (st.counter + 1) ea rta st.attr_breakpoints st.pkg_path
    Except.ok (List.foldl (process_package layer_path) st2 layer.packages)

/-- The state at entry of `get_external_attrs`: empty accumulators, no
uuid drawn yet, `pkg_path` unassigned. -/
def initAggState : AggState := AggState.mk 0 [] [] [] none

/-- The `for layer in image_obj.layers` loop itself, threading the state
through `process_layer` and propagating a raised exception. -/
def process_layers (st : AggState) : List Layer → Except String AggState
  | [] => Except.ok st
  | layer :: rest =>
    match process_layer st layer with
    | Except.error msg => Except.error msg
    | Except.ok st2 => process_layers st2 rest

/-- `get_external_attrs(image_obj)`: the aggregation pass, returning the
attribution registry, the path index and the breakpoint set. -/
def get_external_attrs (image_obj : Image) :
    Except String (List (Nat × Attr) × List (String × List Nat) × List String) :=
  match process_layers initAggState image_obj.layers with
  | Except.error msg => Except.error msg
  | Except.ok st => Except.ok (st.external_attrs, st.resources_to_attrs, st.attr_breakpoints)

/-! ## The document assembler (`get_document_dict`, `OpossumUI.generate`) -/

/-- The metadata block of the document. -/
structure Metadata where
  projectId : String
  projectTitle : String
  fileCreationDate : String
  deriving DecidableEq

/-- A Python collection value as stored in the document: a set or a list
of strings.  The distinction matters because the source stores the
breakpoint set itself, not a list. -/
inductive PyColl where
  | pyset (elems : List String)
  | pylist (elems : List String)
  deriving DecidableEq

/-- The assembled document. -/
structure Doc where
  metadata : Metadata
  externalAttributions : List (Nat × Attr)
  resourcesToAttributions : List (String × List Nat)
  attributionBreakpoints : PyColl
  resources : FileTree

/-- External clock collaborator (spdx_common.get_timestamp), a fixed
placeholder: no claim depends on its value. -/
def get_timestamp : String := "TIMESTAMP"

/-- Second component of the external version lookup
(get_git_rev_or_version()[1]), a fixed placeholder. -/
def get_git_rev_or_version_snd : String := "VERSION"

/-- Python `list.append` mutates its receiver and returns None; the source
feeds this return value onward, so the combination of path-index keys and
breakpoints produces None, never a list. -/
def listAppendRet (_keys : List String) (_bps : PyColl) : Option (List String) := none

/-- The document dict as of the assignment on the `get_external_attrs`
line: metadata together with the three aggregator outputs, the breakpoint
set stored as the set it is. -/
def docu_dict_before_resources (image_obj : Image) :
    Except String (Metadata × List (Nat × Attr) × List (String × List Nat) × PyColl) :=
  match get_external_attrs image_obj with
  | Except.error msg => Except.error msg
  | Except.ok (ea, rta, bps) =>
    Except.ok (Metadata.mk get_git_rev_or_version_snd ("Tern report for " ++ image_obj.name) get_timestamp,
      ea, rta, PyColl.pyset bps)

/-- `get_document_dict(image_obj)`: assemble the document; the resources
line iterates the None returned by `list.append`, raising TypeError. -/
def get_document_dict (image_obj : Image) : Except String Doc :=
  match docu_dict_before_resources image_obj with
  | Except.error msg => Except.error msg
  | Except.ok (md, ea, rta, bps) =>
    match listAppendRet (List.map Prod.fst rta) bps with
    | none => Except.error "TypeError"
    | some paths =>
      match _calculate_file_tree_from_paths paths with
      | Except.error msg => Except.error msg
      | Except.ok resources => Except.ok (Doc.mk md ea rta bps resources)

/-- `OpossumUI.generate(image_obj_list)`: indexes the first image (IndexError
on an empty list) and assembles its document; the final json.dumps is an
external pure serialization of the returned document and is not modelled. -/
def OpossumUI_generate (image_obj_list : List Image) : Except String Doc :=
  match image_obj_list with
  | [] => Except.error "IndexError"
  | image_obj :: _ => get_document_dict image_obj

/-! ## Helper lemmas about the tree operations -/

theorem assocFind_nil (k : String) : assocFind [] k = none := rfl

theorem assocFind_singleton_self (e : String) (v : FsNode) : assocFind [(e, v)] e = some v := by
  simp [assocFind]

theorem assocFind_append_some {ft : FileTree} {k : String} {t : FsNode}
    (h : assocFind ft k = some t) (l : FileTree) : assocFind (ft ++ l) k = some t := by
  induction ft with
  | nil => exact absurd h (by simp [assocFind])
  | cons hd tl ih =>
    obtain ⟨k0, t0⟩ := hd
    by_cases hk : k0 = k
    · subst hk
      simp [assocFind] at h ⊢
      exact h
    · simp only [List.cons_append, assocFind, if_neg hk] at h ⊢
      exact ih h

theorem assocFind_append_none {ft : FileTree} {k : String}
    (h : assocFind ft k = none) (l : FileTree) : assocFind (ft ++ l) k = assocFind l k := by
  induction ft with
  | nil => simp
  | cons hd tl ih =>
    obtain ⟨k0, t0⟩ := hd
    by_cases hk : k0 = k
    · subst hk
      simp [assocFind] at h
    · simp only [List.cons_append, assocFind, if_neg hk] at h ⊢
      exact ih h

theorem assocFind_assocSet_found {ft : FileTree} {k : String} {t0 : FsNode}
    (h : assocFind ft k = some t0) (v : FsNode) :
    assocFind (assocSet ft k v) k = some v := by
  induction ft with
  | nil => exact absurd h (by simp [assocFind])
  | cons hd tl ih =>
    obtain ⟨k0, t1⟩ := hd
    by_cases hk : k0 = k
    · subst hk
      simp [assocSet, assocFind]
    · simp only [assocFind, if_neg hk] at h
      simp only [assocSet, if_neg hk, assocFind, if_neg hk]
      exact ih h

theorem assocFind_assocSet_ne {ft : FileTree} {k s : String}
    (hne : s ≠ k) (v : FsNode) :
    assocFind (assocSet ft k v) s = assocFind ft s := by
  induction ft with
  | nil => simp [assocSet]
  | cons hd tl ih =>
    obtain ⟨k0, t0⟩ := hd
    by_cases hk : k0 = k
    · subst hk
      have hks : ¬(k0 = s) := fun hcontra => hne hcontra.symm
      simp [assocSet, assocFind, hks]
    · by_cases hs : k0 = s
      · subst hs
        simp [assocSet, if_neg hk, assocFind]
      · simp only [assocSet, if_neg hk, assocFind, if_neg hs]
        exact ih

theorem resolve_nil (ft : FileTree) : resolve ft [] = some (FsNode.dir ft) := rfl

theorem resolve_one (ft : FileTree) (s : String) : resolve ft [s] = assocFind ft s := rfl

theorem resolve_two (ft : FileTree) (s r2 : String) (rest : List String) :
    resolve ft (s :: r2 :: rest) =
      match assocFind ft s with
      | some (FsNode.dir ch) => resolve ch (r2 :: rest)
      | _ => none := rfl

theorem resolve_cons_none {ft : FileTree} {s : String}
    (hf : assocFind ft s = none) (r : List String) : resolve ft (s :: r) = none := by
  cases r with
  | nil => rw [resolve_one, hf]
  | cons r2 rest => rw [resolve_two, hf]

theorem resolve_cons_file {ft : FileTree} {s : String}
    (hf : assocFind ft s = some FsNode.file) (r2 : String) (rest : List String) :
    resolve ft (s :: r2 :: rest) = none := by
  rw [resolve_two, hf]

theorem resolve_cons_dir {ft : FileTree} {s : String} {ch : FileTree}
    (hf : assocFind ft s = some (FsNode.dir ch)) (r2 : String) (rest : List String) :
    resolve ft (s :: r2 :: rest) = resolve ch (r2 :: rest) := by
  rw [resolve_two, hf]

theorem resolve_nilFT (s : String) (r : List String) :
    resolve ([] : FileTree) (s :: r) = none :=
  resolve_cons_none (assocFind_nil s) r

theorem resolve_append_found {ft : FileTree} {s : String} {t0 : FsNode}
    (hf : assocFind ft s = some t0) (l : FileTree) (r : List String) :
    resolve (ft ++ l) (s :: r) = resolve ft (s :: r) := by
  cases r with
  | nil => rw [resolve_one, resolve_one, assocFind_append_some hf l, hf]
  | cons r2 rest =>
    cases t0 with
    | file => rw [resolve_cons_file (assocFind_append_some hf l), resolve_cons_file hf]
    | dir ch => rw [resolve_cons_dir (assocFind_append_some hf l), resolve_cons_dir hf]

theorem resolve_assocSet_ne {ft : FileTree} {k s : String}
    (hne : s ≠ k) (v : FsNode) (r : List String) :
    resolve (assocSet ft k v) (s :: r) = resolve ft (s :: r) := by
  have hf : assocFind (assocSet ft k v) s = assocFind ft s := assocFind_assocSet_ne hne v
  cases r with
  | nil => rw [resolve_one, resolve_one, hf]
  | cons r2 rest =>
    cases hfs : assocFind ft s with
    | none => rw [resolve_cons_none (hf.trans hfs), resolve_cons_none hfs]
    | some t0 =>
      cases t0 with
      | file => rw [resolve_cons_file (hf.trans hfs), resolve_cons_file hfs]
      | dir ch => rw [resolve_cons_dir (hf.trans hfs), resolve_cons_dir hfs]

theorem isInitialOf_nil_right {pre : List String} (h : isInitialOf pre []) : pre = [] := by
  obtain ⟨tail, ht⟩ := h
  exact (List.append_eq_nil.mp ht).1

theorem isInitialOf_cons {pre : List String} {e : String} {l : List String}
    (hne : pre ≠ []) (h : isInitialOf pre (e :: l)) :
    ∃ pre2, pre = e :: pre2 ∧ isInitialOf pre2 l := by
  obtain ⟨tail, ht⟩ := h
  cases pre with
  | nil => exact absurd rfl hne
  | cons a pre2 =>
    rw [List.cons_append] at ht
    injection ht with h1 h2
    subst h1
    exact ⟨pre2, rfl, tail, h2⟩

theorem isInitialOf_cons_intro {pre2 : List String} {e : String} {l : List String}
    (h : isInitialOf pre2 l) : isInitialOf (e :: pre2) (e :: l) := by
  obtain ⟨tail, ht⟩ := h
  exact ⟨tail, by rw [List.cons_append, ht]⟩

theorem isInitialOf_refl (l : List String) : isInitialOf l l := ⟨[], List.append_nil l⟩

theorem isInitialOf_single {e : String} {l : List String} : isInitialOf [e] (e :: l) := ⟨l, rfl⟩

/-- Every node resolvable before an insertion is still resolvable after it. -/
theorem add_mono :
    ∀ (elems : List String) (ft : FileTree) (isf : Bool) (ft2 : FileTree),
      _add_resource_to_tree ft elems isf = Except.ok ft2 →
      ∀ segs n, resolve ft segs = some n → ∃ n2, resolve ft2 segs = some n2 := by
  intro elems
  induction elems with
  | nil =>
    intro ft isf ft2 h segs n hn
    simp only [_add_resource_to_tree, Except.ok.injEq] at h
    subst h
    exact ⟨n, hn⟩
  | cons e rest ih =>
    intro ft isf ft2 h segs n hn
    cases rest with
    | nil =>
      simp only [_add_resource_to_tree] at h
      cases hf : assocFind ft e with
      | none =>
        simp only [hf, Except.ok.injEq] at h
        subst h
        cases segs with
        | nil => exact ⟨_, resolve_nil _⟩
        | cons s r3 =>
          cases hfs : assocFind ft s with
          | none =>
            rw [resolve_cons_none hfs] at hn
            exact Option.noConfusion hn
          | some t0 => exact ⟨n, (resolve_append_found hfs _ r3).trans hn⟩
      | some t0 =>
        simp only [hf, Except.ok.injEq] at h
        subst h
        exact ⟨n, hn⟩
    | cons r rest2 =>
      simp only [_add_resource_to_tree] at h
      cases hf : assocFind ft e with
      | none =>
        simp only [hf] at h
        cases hsub : _add_resource_to_tree [] (r :: rest2) isf with
        | error msg => simp [hsub] at h
        | ok sub =>
          simp only [hsub, Except.ok.injEq] at h
          subst h
          cases segs with
          | nil => exact ⟨_, resolve_nil _⟩
          | cons s r3 =>
            cases hfs : assocFind ft s with
            | none =>
              rw [resolve_cons_none hfs] at hn
              exact Option.noConfusion hn
            | some t0 => exact ⟨n, (resolve_append_found hfs _ r3).trans hn⟩
      | some t0 =>
        cases t0 with
        | file => simp [hf] at h
        | dir ch =>
          simp only [hf] at h
          cases hsub : _add_resource_to_tree ch (r :: rest2) isf with
          | error msg => simp [hsub] at h
          | ok ch2 =>
            simp only [hsub, Except.ok.injEq] at h
            subst h
            cases segs with
            | nil => exact ⟨_, resolve_nil _⟩
            | cons s r3 =>
              by_cases hse : s = e
              · subst hse
                cases r3 with
                | nil =>
                  exact ⟨FsNode.dir ch2, by
                    rw [resolve_one]
                    exact assocFind_assocSet_found hf _⟩
                | cons r4 rest4 =>
                  rw [resolve_cons_dir hf r4 rest4] at hn
                  obtain ⟨n2, hn2⟩ := ih ch isf ch2 hsub (r4 :: rest4) n hn
                  exact ⟨n2, by
                    rw [resolve_cons_dir (assocFind_assocSet_found hf (FsNode.dir ch2)) r4 rest4]
                    exact hn2⟩
              · exact ⟨n, (resolve_assocSet_ne hse _ r3).trans hn⟩

/-- After a successful insertion every nonempty initial chain of the
inserted segment list resolves to a node. -/
theorem add_creates :
    ∀ (elems : List String) (ft : FileTree) (isf : Bool) (ft2 : FileTree),
      _add_resource_to_tree ft elems isf = Except.ok ft2 →
      ∀ pre, pre ≠ [] → isInitialOf pre elems → ∃ n, resolve ft2 pre = some n := by
  intro elems
  induction elems with
  | nil =>
    intro ft isf ft2 h pre hne hinit
    exact absurd (isInitialOf_nil_right hinit) hne
  | cons e rest ih =>
    intro ft isf ft2 h pre hne hinit
    obtain ⟨pre2, rfl, hinit2⟩ := isInitialOf_cons hne hinit
    cases rest with
    | nil =>
      have hpre2 : pre2 = [] := isInitialOf_nil_right hinit2
      subst hpre2
      simp only [_add_resource_to_tree] at h
      cases hf : assocFind ft e with
      | none =>
        simp only [hf, Except.ok.injEq] at h
        subst h
        exact ⟨if isf then FsNode.file else FsNode.dir [], by
          rw [resolve_one, assocFind_append_none hf, assocFind_singleton_self]⟩
      | some t0 =>
        simp only [hf, Except.ok.injEq] at h
        subst h
        exact ⟨t0, by rw [resolve_one, hf]⟩
    | cons r rest2 =>
      simp only [_add_resource_to_tree] at h
      cases hf : assocFind ft e with
      | none =>
        simp only [hf] at h
        cases hsub : _add_resource_to_tree [] (r :: rest2) isf with
        | error msg => simp [hsub] at h
        | ok sub =>
          simp only [hsub, Except.ok.injEq] at h
          subst h
          have hfe : assocFind (ft ++ [(e, FsNode.dir sub)]) e = some (FsNode.dir sub) := by
            rw [assocFind_append_none hf, assocFind_singleton_self]
          cases pre2 with
          | nil => exact ⟨FsNode.dir sub, by rw [resolve_one, hfe]⟩
          | cons p ps =>
            obtain ⟨n, hn⟩ := ih [] isf sub hsub (p :: ps) (by simp) hinit2
            exact ⟨n, by rw [resolve_cons_dir hfe p ps]; exact hn⟩
      | some t0 =>
        cases t0 with
        | file => simp [hf] at h
        | dir ch =>
          simp only [hf] at h
          cases hsub : _add_resource_to_tree ch (r :: rest2) isf with
          | error msg => simp [hsub] at h
          | ok ch2 =>
            simp only [hsub, Except.ok.injEq] at h
            subst h
            have hfe : assocFind (assocSet ft e (FsNode.dir ch2)) e = some (FsNode.dir ch2) :=
              assocFind_assocSet_found hf _
            cases pre2 with
            | nil => exact ⟨FsNode.dir ch2, by rw [resolve_one, hfe]⟩
            | cons p ps =>
              obtain ⟨n, hn⟩ := ih ch isf ch2 hsub (p :: ps) (by simp) hinit2
              exact ⟨n, by rw [resolve_cons_dir hfe p ps]; exact hn⟩

/-- Every node resolvable after an insertion was already resolvable
before it or lies on the inserted chain. -/
theorem add_no_junk :
    ∀ (elems : List String) (ft : FileTree) (isf : Bool) (ft2 : FileTree),
      _add_resource_to_tree ft elems isf = Except.ok ft2 →
      ∀ segs n, resolve ft2 segs = some n →
        (∃ n0, resolve ft segs = some n0) ∨ (segs ≠ [] ∧ isInitialOf segs elems) := by
  intro elems
  induction elems with
  | nil =>
    intro ft isf ft2 h segs n hn
    simp only [_add_resource_to_tree, Except.ok.injEq] at h
    subst h
    exact Or.inl ⟨n, hn⟩
  | cons e rest ih =>
    intro ft isf ft2 h segs n hn
    cases rest with
    | nil =>
      simp only [_add_resource_to_tree] at h
      cases hf : assocFind ft e with
      | some t0 =>
        simp only [hf, Except.ok.injEq] at h
        subst h
        exact Or.inl ⟨n, hn⟩
      | none =>
        simp only [hf, Except.ok.injEq] at h
        subst h
        cases segs with
        | nil => exact Or.inl ⟨_, resolve_nil _⟩
        | cons s r3 =>
          cases hfs : assocFind ft s with
          | some t1 =>
            rw [resolve_append_found hfs _ r3] at hn
            exact Or.inl ⟨n, hn⟩
          | none =>
            by_cases hse : s = e
            · subst hse
              have hfe : assocFind (ft ++ [(s, if isf then FsNode.file else FsNode.dir [])]) s
                  = some (if isf then FsNode.file else FsNode.dir []) := by
                rw [assocFind_append_none hfs, assocFind_singleton_self]
              cases r3 with
              | nil => exact Or.inr ⟨by simp, isInitialOf_single⟩
              | cons r4 rest4 =>
                exfalso
                cases isf with
                | true =>
                  rw [resolve_cons_file (by simpa using hfe) r4 rest4] at hn
                  exact Option.noConfusion hn
                | false =>
                  rw [resolve_cons_dir (by simpa using hfe) r4 rest4, resolve_nilFT] at hn
                  exact Option.noConfusion hn
            · have hfind : assocFind (ft ++ [(e, if isf then FsNode.file else FsNode.dir [])]) s = none := by
                rw [assocFind_append_none hfs]
                simp [assocFind, Ne.symm hse]
              rw [resolve_cons_none hfind r3] at hn
              exact Option.noConfusion hn
    | cons r rest2 =>
      simp only [_add_resource_to_tree] at h
      cases hf : assocFind ft e with
      | none =>
        simp only [hf] at h
        cases hsub : _add_resource_to_tree [] (r :: rest2) isf with
        | error msg => simp [hsub] at h
        | ok sub =>
          simp only [hsub, Except.ok.injEq] at h
          subst h
          cases segs with
          | nil => exact Or.inl ⟨_, resolve_nil _⟩
          | cons s r3 =>
            cases hfs : assocFind ft s with
            | some t1 =>
              rw [resolve_append_found hfs _ r3] at hn
              exact Or.inl ⟨n, hn⟩
            | none =>
              by_cases hse : s = e
              · subst hse
                have hfe : assocFind (ft ++ [(s, FsNode.dir sub)]) s = some (FsNode.dir sub) := by
                  rw [assocFind_append_none hfs, assocFind_singleton_self]
                cases r3 with
                | nil => exact Or.inr ⟨by simp, isInitialOf_single⟩
                | cons r4 rest4 =>
                  rw [resolve_cons_dir hfe r4 rest4] at hn
                  rcases ih [] isf sub hsub (r4 :: rest4) n hn with ⟨n0, hn0⟩ | ⟨hne4, hinit4⟩
                  · rw [resolve_nilFT] at hn0
                    exact Option.noConfusion hn0
                  · exact Or.inr ⟨by simp, isInitialOf_cons_intro hinit4⟩
              · have hfind : assocFind (ft ++ [(e, FsNode.dir sub)]) s = none := by
                  rw [assocFind_append_none hfs]
                  simp [assocFind, Ne.symm hse]
                rw [resolve_cons_none hfind r3] at hn
                exact Option.noConfusion hn
      | some t0 =>
        cases t0 with
        | file => simp [hf] at h
        | dir ch =>
          simp only [hf] at h
          cases hsub : _add_resource_to_tree ch (r :: rest2) isf with
          | error msg => simp [hsub] at h
          | ok ch2 =>
            simp only [hsub, Except.ok.injEq] at h
            subst h
            cases segs with
            | nil => exact Or.inl ⟨_, resolve_nil _⟩
            | cons s r3 =>
              by_cases hse : s = e
              · subst hse
                have hfe2 : assocFind (assocSet ft s (FsNode.dir ch2)) s = some (FsNode.dir ch2) :=
                  assocFind_assocSet_found hf _
                cases r3 with
                | nil => exact Or.inl ⟨FsNode.dir ch, by rw [resolve_one, hf]⟩
                | cons r4 rest4 =>
                  rw [resolve_cons_dir hfe2 r4 rest4] at hn
                  rcases ih ch isf ch2 hsub (r4 :: rest4) n hn with ⟨n0, hn0⟩ | ⟨hne4, hinit4⟩
                  · exact Or.inl ⟨n0, by rw [resolve_cons_dir hf r4 rest4]; exact hn0⟩
                  · exact Or.inr ⟨by simp, isInitialOf_cons_intro hinit4⟩
              · rw [resolve_assocSet_ne hse _ r3] at hn
                exact Or.inl ⟨n, hn⟩

theorem pathElements_root : pathElements "/" = [] := rfl

theorem pr_mono {ft : FileTree} {p : String} {ft2 : FileTree}
    (h : processResource ft p = Except.ok ft2) :
    ∀ segs n, resolve ft segs = some n → ∃ n2, resolve ft2 segs = some n2 := by
  intro segs n hn
  by_cases hp : p = "/"
  · simp only [processResource, hp, if_true, Except.ok.injEq] at h
    subst h
    exact ⟨n, hn⟩
  · by_cases hp0 : p = ""
    · simp [processResource, hp, hp0] at h
    · simp only [processResource, if_neg hp, if_neg hp0] at h
      exact add_mono (pathElements p) ft (endsWithSlash p) ft2 h segs n hn

theorem pr_creates {ft : FileTree} {p : String} {ft2 : FileTree}
    (h : processResource ft p = Except.ok ft2) :
    ∀ pre, pre ≠ [] → isInitialOf pre (pathElements p) → ∃ n, resolve ft2 pre = some n := by
  intro pre hne hinit
  by_cases hp : p = "/"
  · subst hp
    rw [pathElements_root] at hinit
    exact absurd (isInitialOf_nil_right hinit) hne
  · by_cases hp0 : p = ""
    · simp [processResource, hp, hp0] at h
    · simp only [processResource, if_neg hp, if_neg hp0] at h
      exact add_creates (pathElements p) ft (endsWithSlash p) ft2 h pre hne hinit

theorem pr_no_junk {ft : FileTree} {p : String} {ft2 : FileTree}
    (h : processResource ft p = Except.ok ft2) :
    ∀ segs n, resolve ft2 segs = some n →
      (∃ n0, resolve ft segs = some n0) ∨ (segs ≠ [] ∧ isInitialOf segs (pathElements p)) := by
  intro segs n hn
  by_cases hp : p = "/"
  · simp only [processResource, hp, if_true, Except.ok.injEq] at h
    subst h
    exact Or.inl ⟨n, hn⟩
  · by_cases hp0 : p = ""
    · simp [processResource, hp, hp0] at h
    · simp only [processResource, if_neg hp, if_neg hp0] at h
      exact add_no_junk (pathElements p) ft (endsWithSlash p) ft2 h segs n hn

theorem fold_mono :
    ∀ (P : List String) (ft0 t : FileTree), processResources ft0 P = Except.ok t →
      ∀ segs n, resolve ft0 segs = some n → ∃ n2, resolve t segs = some n2 := by
  intro P
  induction P with
  | nil =>
    intro ft0 t h segs n hn
    simp only [processResources, Except.ok.injEq] at h
    subst h
    exact ⟨n, hn⟩
  | cons p P2 ih =>
    intro ft0 t h segs n hn
    cases hp : processResource ft0 p with
    | error msg => simp [processResources, hp] at h
    | ok mid =>
      simp only [processResources, hp] at h
      obtain ⟨n2, hn2⟩ := pr_mono hp segs n hn
      exact ih mid t h segs n2 hn2

theorem fold_creates :
    ∀ (P : List String) (ft0 t : FileTree), processResources ft0 P = Except.ok t →
      ∀ p ∈ P, ∀ pre, pre ≠ [] → isInitialOf pre (pathElements p) →
        ∃ n, resolve t pre = some n := by
  intro P
  induction P with
  | nil =>
    intro ft0 t h p hp
    exact absurd hp (List.not_mem_nil p)
  | cons q P2 ih =>
    intro ft0 t h p hp pre hne hinit
    cases hq : processResource ft0 q with
    | error msg => simp [processResources, hq] at h
    | ok mid =>
      simp only [processResources, hq] at h
      rcases List.mem_cons.mp hp with rfl | hp2
      · obtain ⟨n, hn⟩ := pr_creates hq pre hne hinit
        exact fold_mono P2 mid t h pre n hn
      · exact ih mid t h p hp2 pre hne hinit

theorem fold_no_junk :
    ∀ (P : List String) (ft0 t : FileTree), processResources ft0 P = Except.ok t →
      ∀ segs n, resolve t segs = some n →
        (∃ n0, resolve ft0 segs = some n0) ∨
          (segs ≠ [] ∧ ∃ p ∈ P, isInitialOf segs (pathElements p)) := by
  intro P
  induction P with
  | nil =>
    intro ft0 t h segs n hn
    simp only [processResources, Except.ok.injEq] at h
    subst h
    exact Or.inl ⟨n, hn⟩
  | cons q P2 ih =>
    intro ft0 t h segs n hn
    cases hq : processResource ft0 q with
    | error msg => simp [processResources, hq] at h
    | ok mid =>
      simp only [processResources, hq] at h
      rcases ih mid t h segs n hn with ⟨n0, hn0⟩ | ⟨hne, p, hp, hinit⟩
      · rcases pr_no_junk hq segs n0 hn0 with ⟨n1, hn1⟩ | ⟨hne, hinit⟩
        · exact Or.inl ⟨n1, hn1⟩
        · exact Or.inr ⟨hne, q, List.mem_cons_self q P2, hinit⟩
      · exact Or.inr ⟨hne, p, List.mem_cons_of_mem q hp, hinit⟩

/-! ## Helper lemmas about the breakpoint set -/

theorem setAdd_mem_self (s : List String) (x : String) : x ∈ setAdd s x := by
  by_cases h : x ∈ s <;> simp [setAdd, h]

theorem setAdd_mem_mono (s : List String) (x y : String) (h : y ∈ s) : y ∈ setAdd s x := by
  by_cases hx : x ∈ s <;> simp [setAdd, hx, h]

theorem bps_mono_pp (layer_path : String) (pkg : Package) (st : AggState) (x : String)
    (h : x ∈ st.attr_breakpoints) :
    x ∈ (process_package layer_path st pkg).attr_breakpoints := by
  show x ∈ setAdd (setAdd st.attr_breakpoints
    (layer_path ++ "/Packages/" ++ pkg.source ++ "/")) (layer_path ++ "/Packages/")
  exact setAdd_mem_mono _ _ _ (setAdd_mem_mono _ _ _ h)

theorem bps_mono_foldl (layer_path : String) (pkgs : List Package) :
    ∀ (st : AggState) (x : String), x ∈ st.attr_breakpoints →
      x ∈ (List.foldl (process_package layer_path) st pkgs).attr_breakpoints := by
  induction pkgs with
  | nil => intro st x h; exact h
  | cons p rest ih =>
    intro st x h
    exact ih (process_package layer_path st p) x (bps_mono_pp layer_path p st x h)

theorem bps_each_pkg (layer_path : String) (pkgs : List Package) :
    ∀ (st : AggState) (pkg : Package), pkg ∈ pkgs →
      (layer_path ++ "/Packages/" ++ pkg.source ++ "/") ∈
        (List.foldl (process_package layer_path) st pkgs).attr_breakpoints := by
  induction pkgs with
  | nil => intro st pkg h; exact absurd h (List.not_mem_nil pkg)
  | cons p rest ih =>
    intro st pkg h
    rcases List.mem_cons.mp h with rfl | h2
    · refine bps_mono_foldl layer_path rest (process_package layer_path st pkg) _ ?_
      show _ ∈ setAdd (setAdd st.attr_breakpoints
        (layer_path ++ "/Packages/" ++ pkg.source ++ "/")) (layer_path ++ "/Packages/")
      exact setAdd_mem_mono _ _ _ (setAdd_mem_self _ _)
    · exact ih (process_package layer_path st p) pkg h2

/-! ## Claim theorems -/

/-- C1: the claim says each layer's freshly generated identifier is
appended to the Path Index entry for the layer's own packages-root path
`<layerpath>/Packages/` before any package of the layer is processed.
The code instead evaluates an f-string over the package-scoped variable
`pkg_path`, which is unbound when the first layer is processed, so the
aggregator raises UnboundLocalError on any image with at least one layer
and never writes the layer-level Path Index entry at all: evaluated here
on a one-layer image. -/
theorem claim_C1_layer_anchor_crash :
    get_external_attrs (Image.mk "img" [Layer.mk 0 "layer_0" []]) =
      Except.error "UnboundLocalError" := rfl

/-- C2: the claim says the `resources` tree is compiled from the union of
the Path Index keys and the Breakpoint Set entries.  The code calls
`list(keys).append(breakpoints)` and passes the call's return value — the
None that Python's list.append returns — to the tree compiler, which
raises TypeError when iterating it; no tree over the union is ever built.
Evaluated on a zero-layer image (which survives the aggregation pass, so
the failure isolated here is exactly the resources line). -/
theorem claim_C2_tree_union_crash :
    get_document_dict (Image.mk "img2" []) = Except.error "TypeError" := rfl

/-- C3: the claim says a path ending in the separator compiles to a
directory node and a path not ending in the separator compiles to the
file sentinel 1.  The code passes `is_file=resource[-1] == "/"`, which is
the inverse of its parameter's meaning, so the trailing-slash path "a/"
compiles to the file sentinel and the slash-free path "b" compiles to an
empty directory mapping — the exact opposite of the claim. -/
theorem claim_C3_classification_inverted :
    _calculate_file_tree_from_paths ["a/"] = Except.ok [("a", FsNode.file)] ∧
    _calculate_file_tree_from_paths ["b"] = Except.ok [("b", FsNode.dir [])] :=
  ⟨rfl, rfl⟩

/-- C4 counterexample: the claim says all three of the package directory
path, the per-ecosystem directory and the bare packages-root are added to
the Breakpoint Set for every processed package.  Processing the concrete
package pip/foo of layer path "/000" leaves the package directory path
"/000/Packages/pip/foo/" outside the breakpoint set: only two paths are
ever added. -/
theorem claim_C4_counterexample :
    "/000/Packages/pip/foo/" ∉ (process_package "/000" initAggState
      (Package.mk "pip" "foo" "1.0" "" [] "" "" [] ["usr/lib/foo.py"])).attr_breakpoints := by
  decide

/-- C4 amended: for every package processed by the aggregator's package
loop, the per-ecosystem directory `<layerpath>/Packages/<source>/` and the
bare `<layerpath>/Packages/` are added to (and hence members of) the
resulting Breakpoint Set; the package directory path itself is not added. -/
theorem claim_C4_amended (layer_path : String) (st : AggState) (pkg : Package) :
    (layer_path ++ "/Packages/" ++ pkg.source ++ "/") ∈
      (process_package layer_path st pkg).attr_breakpoints ∧
    (layer_path ++ "/Packages/") ∈ (process_package layer_path st pkg).attr_breakpoints := by
  constructor
  · show _ ∈ setAdd (setAdd st.attr_breakpoints
      (layer_path ++ "/Packages/" ++ pkg.source ++ "/")) (layer_path ++ "/Packages/")
    exact setAdd_mem_mono _ _ _ (setAdd_mem_self _ _)
  · show _ ∈ setAdd (setAdd st.attr_breakpoints
      (layer_path ++ "/Packages/" ++ pkg.source ++ "/")) (layer_path ++ "/Packages/")
    exact setAdd_mem_self _ _

/-- C5 counterexample: the claim says the packages-root path of every
layer — including a layer with no packages — belongs to the resulting
Breakpoint Set.  On the concrete image with a single package-less layer
the aggregator produces no output at all (it raises UnboundLocalError),
so no Breakpoint Set containing "/000/Packages/" results; and breakpoints
are only ever added inside the package loop, so a package-less layer
could never contribute its packages-root either. -/
theorem claim_C5_counterexample :
    ¬ ∃ ea rta bps,
      get_external_attrs (Image.mk "i5" [Layer.mk 0 "L0" []]) = Except.ok (ea, rta, bps) ∧
      "/000/Packages/" ∈ bps := by
  rintro ⟨ea, rta, bps, h, -⟩
  exact Except.noConfusion
    (show (Except.error "UnboundLocalError" :
      Except String (List (Nat × Attr) × List (String × List Nat) × List String)) =
      Except.ok (ea, rta, bps) from h)

/-- C5 amended: for every layer whose package list is non-empty, running
the aggregator's package loop for that layer puts the layer's
packages-root path into the Breakpoint Set, and the per-ecosystem path of
every package of the layer into the Breakpoint Set; a layer with no
packages contributes neither (and the aggregator as written fails before
completing any layer). -/
theorem claim_C5_amended (layer_path : String) (st : AggState) (pkgs : List Package)
    (hne : pkgs ≠ []) :
    (layer_path ++ "/Packages/") ∈
      (List.foldl (process_package layer_path) st pkgs).attr_breakpoints ∧
    ∀ pkg ∈ pkgs, (layer_path ++ "/Packages/" ++ pkg.source ++ "/") ∈
      (List.foldl (process_package layer_path) st pkgs).attr_breakpoints := by
  constructor
  · obtain ⟨p, rest, rfl⟩ := List.exists_cons_of_ne_nil hne
    refine bps_mono_foldl layer_path rest (process_package layer_path st p) _ ?_
    show _ ∈ setAdd (setAdd st.attr_breakpoints
      (layer_path ++ "/Packages/" ++ p.source ++ "/")) (layer_path ++ "/Packages/")
    exact setAdd_mem_self _ _
  · intro pkg h
    exact bps_each_pkg layer_path pkgs st pkg h

/-- C5 witness: the amended statement evaluated for the layer path "/000"
and a one-package layer. -/
theorem claim_C5_witness :
    ("/000" ++ "/Packages/") ∈
      (List.foldl (process_package "/000") initAggState
        [Package.mk "pip" "foo" "1.0" "" [] "" "" [] []]).attr_breakpoints ∧
    ∀ pkg ∈ [Package.mk "pip" "foo" "1.0" "" [] "" "" [] []],
      ("/000" ++ "/Packages/" ++ pkg.source ++ "/") ∈
        (List.foldl (process_package "/000") initAggState
          [Package.mk "pip" "foo" "1.0" "" [] "" "" [] []]).attr_breakpoints :=
  claim_C5_amended "/000" initAggState
    [Package.mk "pip" "foo" "1.0" "" [] "" "" [] []] (by decide)

/-- C6: the claim says the aggregation raises no errors internally and
completes on every input image, substituting the sentinel for absent
optional fields.  The code raises UnboundLocalError (the unassigned
`pkg_path` read at layer level) on every image with at least one layer,
evaluated here on an image whose only package has all optional fields
absent — the very input the claim says must degrade to "NONE" sentinels
instead of failing. -/
theorem claim_C6_raises_internally :
    get_external_attrs (Image.mk "im6" [Layer.mk 0 "L0"
      [Package.mk "pip" "foo" "" "" [] "" "" [] []]]) =
      Except.error "UnboundLocalError" := rfl

/-- C7: for every package processed by the aggregator's package loop, the
attribution record registered under the package's fresh identifier has a
`licenseName` equal to the resolved license exactly as the specification
words it: the single-license field when present and non-empty, otherwise
the concatenation of the multi-license sequence, otherwise "NONE". -/
theorem claim_C7_license_resolution (layer_path : String) (st : AggState) (pkg : Package) :
    (st.counter, mkPkgAttr pkg) ∈ (process_package layer_path st pkg).external_attrs ∧
    (mkPkgAttr pkg).licenseName? = some (licenseName_spec pkg) := by
  constructor
  · show (st.counter, mkPkgAttr pkg) ∈ st.external_attrs ++ [(st.counter, mkPkgAttr pkg)]
    exact List.mem_append_right _ (List.mem_singleton_self _)
  · by_cases h1 : pkg.pkg_license = ""
    · by_cases h2 : String.join pkg.pkg_licenses = "" <;>
        simp [mkPkgAttr, licenseName_spec, Attr.licenseName?, h1, h2]
    · simp [mkPkgAttr, licenseName_spec, Attr.licenseName?, h1]

/-- C8 counterexample: the claim ranges over all path sets; on the
concrete two-path input ["a/", "a/b"] the compiler raises AttributeError
(descending through an existing sentinel node), so no compiled tree —
and in particular no tree containing every prefix — exists for it. -/
theorem claim_C8_counterexample :
    _calculate_file_tree_from_paths ["a/", "a/b"] = Except.error "AttributeError" := rfl

/-- C8 amended: for every path list on which the Path Tree Compiler
succeeds, (1) every nonempty initial segment chain of every input path
resolves to a node of the compiled tree, (2) every nonempty segment chain
that resolves to a node is an initial chain of some input path, and
(3) every input path's full segment chain resolves to exactly one node. -/
theorem claim_C8_amended (P : List String) (t : FileTree)
    (h : _calculate_file_tree_from_paths P = Except.ok t) :
    (∀ p ∈ P, ∀ pre, pre ≠ [] → isInitialOf pre (pathElements p) →
      ∃ n, resolve t pre = some n) ∧
    (∀ segs, segs ≠ [] → (∃ n, resolve t segs = some n) →
      ∃ p ∈ P, isInitialOf segs (pathElements p)) ∧
    (∀ p ∈ P, ∃! n, resolve t (pathElements p) = some n) := by
  have h0 : processResources [] P = Except.ok t := h
  refine ⟨fold_creates P [] t h0, ?_, ?_⟩
  · rintro segs hne ⟨n, hn⟩
    rcases fold_no_junk P [] t h0 segs n hn with ⟨n0, hn0⟩ | ⟨-, p, hp, hinit⟩
    · cases segs with
      | nil => exact absurd rfl hne
      | cons s r =>
        rw [resolve_nilFT] at hn0
        exact Option.noConfusion hn0
    · exact ⟨p, hp, hinit⟩
  · intro p hp
    by_cases hpe : pathElements p = []
    · rw [hpe]
      exact ⟨FsNode.dir t, rfl, fun y hy => (Option.some.inj hy).symm⟩
    · obtain ⟨n, hn⟩ := fold_creates P [] t h0 p hp (pathElements p) hpe (isInitialOf_refl _)
      exact ⟨n, hn, fun y hy => (Option.some.inj (hn.symm.trans hy)).symm⟩

/-- C8 witness: the amended statement evaluated on the singleton path
list ["a/b"] and its compiled tree. -/
theorem claim_C8_witness :
    (∀ p ∈ ["a/b"], ∀ pre, pre ≠ [] → isInitialOf pre (pathElements p) →
      ∃ n, resolve [("a", FsNode.dir [("b", FsNode.dir [])])] pre = some n) ∧
    (∀ segs, segs ≠ [] →
      (∃ n, resolve [("a", FsNode.dir [("b", FsNode.dir [])])] segs = some n) →
      ∃ p ∈ ["a/b"], isInitialOf segs (pathElements p)) ∧
    (∀ p ∈ ["a/b"], ∃! n,
      resolve [("a", FsNode.dir [("b", FsNode.dir [])])] (pathElements p) = some n) :=
  claim_C8_amended ["a/b"] [("a", FsNode.dir [("b", FsNode.dir [])])] rfl

/-- C9 counterexample: the claim says the document returned by the
assembler carries `attributionBreakpoints` as an ordered list of strings.
On the concrete zero-layer image no document with a list there is
returned: the assembler stores the breakpoint set itself (a set, not a
list) and then raises TypeError while computing `resources`, returning no
document at all. -/
theorem claim_C9_counterexample :
    ¬ ∃ doc, get_document_dict (Image.mk "i9" []) = Except.ok doc ∧
      ∃ bps, doc.attributionBreakpoints = PyColl.pylist bps := by
  rintro ⟨doc, hdoc, -⟩
  exact Except.noConfusion
    (show (Except.error "TypeError" : Except String Doc) = Except.ok doc from hdoc)

/-- C9 amended: whatever the assembler has bound to
`attributionBreakpoints` by the time the aggregator outputs are stored in
the document dict is the Breakpoint Set itself — a set, never an ordered
list (and the assembler as written raises before returning a document). -/
theorem claim_C9_amended (image_obj : Image) (md : Metadata)
    (ea : List (Nat × Attr)) (rta : List (String × List Nat)) (c : PyColl)
    (h : docu_dict_before_resources image_obj = Except.ok (md, ea, rta, c)) :
    ∃ bps, c = PyColl.pyset bps := by
  unfold docu_dict_before_resources at h
  cases hg : get_external_attrs image_obj with
  | error msg => rw [hg] at h; exact Except.noConfusion h
  | ok triple =>
    obtain ⟨ea2, rta2, bps2⟩ := triple
    rw [hg] at h
    simp only [Except.ok.injEq, Prod.mk.injEq] at h
    exact ⟨bps2, h.2.2.2.symm⟩

/-- C9 witness: the amended statement evaluated on a zero-layer image,
whose document dict binds the field to the empty set. -/
theorem claim_C9_witness : ∃ bps, PyColl.pyset ([] : List String) = PyColl.pyset bps :=
  claim_C9_amended (Image.mk "w9" [])
    (Metadata.mk "VERSION" "Tern report for w9" "TIMESTAMP") [] [] (PyColl.pyset []) rfl

/-- C10: the report produced by OpossumUI.generate on a non-empty image
list is a function of the first image alone — replacing the tail of the
list with any other tail leaves the result unchanged, because the code
indexes element 0 and ignores the rest. -/
theorem claim_C10_first_image_only (image_obj : Image) (rest1 rest2 : List Image) :
    OpossumUI_generate (image_obj :: rest1) = OpossumUI_generate (image_obj :: rest2) := rfl
